import Mathlib

/-!
Verification of the conversation store, persistence layer, rate limiter and
markdown translator of the ai-chat-starter-kit repository.

The TypeScript sources are shallowly embedded:
* `Date` values are modelled as their UTC millisecond count (`Nat`);
  `new Date()` inside a function becomes an explicit `now : Nat` argument.
* The reducer `chatReducer` of `src/contexts/ChatContext.tsx` is embedded as a
  pure function over `ChatState`/`ChatAction`.
* The module-level `rateLimitMap` of `src/lib/validation.ts` is threaded as an
  explicit association list.
-/

/-!
Each regex-substitution pass of `parseMarkdown`
(`src/components/MarkdownRenderer.tsx`) is embedded as a character-list
transformer with the semantics of the JavaScript global `String.replace`:
scanning is left to right, a failed match attempt advances one character, and
a successful match resumes after the replacement's source text.  Passes whose
pattern cannot cross a newline (`.` without the `s` flag, and `^`/`$` with the
`m` flag) are applied per line via `mapLines`.

The file lists all definitions first, then the theorems about them. -/

set_option maxHeartbeats 1000000

set_option maxRecDepth 16000

/-- Message role, the closed enum `'user' | 'assistant' | 'system'` of
`src/types/chat.ts`. -/
inductive Role where
  | user
  | assistant
  | system
deriving DecidableEq, Repr

/-- `Message` of `src/types/chat.ts`; `timestamp : Date` is modelled as
milliseconds since the epoch, the optional `attachments?: string[]` as an
`Option`. -/
structure Message where
  id : String
  content : String
  role : Role
  timestamp : Nat
  attachments : Option (List String)
deriving DecidableEq, Repr

/-- `Conversation` of `src/types/chat.ts`. -/
structure Conversation where
  id : String
  title : String
  messages : List Message
  createdAt : Nat
  updatedAt : Nat
deriving DecidableEq, Repr

/-- `ChatState` of `src/contexts/ChatContext.tsx`. -/
structure ChatState where
  conversations : List Conversation
  currentConversationId : Option String
  isLoading : Bool
deriving DecidableEq, Repr

/-- `ChatAction` of `src/contexts/ChatContext.tsx`. -/
inductive ChatAction where
  | setConversations (payload : List Conversation)
  | addConversation (payload : Conversation)
  | setCurrentConversation (payload : String)
  | addMessage (conversationId : String) (message : Message)
  | editMessage (conversationId : String) (messageId : String) (content : String)
  | deleteMessage (conversationId : String) (messageId : String)
  | setLoading (payload : Bool)
  | deleteConversation (payload : String)
deriving DecidableEq, Repr

/-- JavaScript `String.prototype.trim`: drop whitespace from both ends (the
model uses the ASCII whitespace characters of `Char.isWhitespace`). -/
def trimChars (l : List Char) : List Char :=
  ((l.dropWhile Char.isWhitespace).reverse.dropWhile Char.isWhitespace).reverse

/-- `trimChars` on strings. -/
def jsTrim (s : String) : String := ⟨trimChars s.data⟩

/-- Split a character list at every occurrence of `sep` (JavaScript
`split(sep)` semantics: `n` separators yield `n + 1` pieces, empty pieces
included). -/
def splitChar (sep : Char) : List Char → List (List Char)
  | [] => [[]]
  | x :: xs =>
      if x = sep then [] :: splitChar sep xs
      else
        match splitChar sep xs with
        | [] => [[x]]
        | h :: t => (x :: h) :: t

/-- `cleaned.split(' ')` of `generateConversationTitle`, as `String`s. -/
def splitWords (s : String) : List String := (splitChar ' ' s.data).map (fun l => ⟨l⟩)

/-- `cleaned.split(/[.!?]/g)` used by `generateConversationTitle` in
`src/lib/utils-enhanced.ts`: split at every occurrence of `.`, `!` or `?`. -/
def splitSentencesAux : List Char → List Char → List (List Char)
  | [], acc => [acc.reverse]
  | c :: rest, acc =>
      if c = '.' ∨ c = '!' ∨ c = '?' then acc.reverse :: splitSentencesAux rest []
      else splitSentencesAux rest (c :: acc)

/-- The sentence list, as `String`s. -/
def splitSentences (s : String) : List String :=
  (splitSentencesAux s.data []).map (fun l => String.mk l)

/-- The word-accumulation loop of `generateConversationTitle`
(`for (const word of words) { if ((title + ' ' + word).length > 50) break; ... }`). -/
def titleWordLoop : List String → String → String
  | [], title => title
  | word :: words, title =>
      if (title ++ " " ++ word).length > 50 then title
      else titleWordLoop words (title ++ (if title = "" then "" else " ") ++ word)

/-- `generateConversationTitle` from `src/lib/utils-enhanced.ts`: trim, return
short messages unchanged, otherwise prefer a sentence boundary, then a word
boundary, then a hard cut at 50 characters. -/
def generateConversationTitle (firstMessage : String) : String :=
  let cleaned := jsTrim firstMessage
  if cleaned.length ≤ 50 then cleaned
  else
    let s0 := (splitSentences cleaned).headD ""
    if s0 ≠ "" ∧ s0.length ≤ 50 then jsTrim s0
    else
      let title := titleWordLoop (splitWords cleaned) ""
      if title = "" then ⟨cleaned.data.take 50⟩ else title

/-- The `ADD_MESSAGE` per-conversation update of `chatReducer`
(`src/contexts/ChatContext.tsx` lines 41-56): append the message, bump
`updatedAt`, and derive the title only for a first user-authored message. -/
def addMessageConv (now : Nat) (conversationId : String) (message : Message)
    (conv : Conversation) : Conversation :=
  if conv.id = conversationId then
    { conv with
      messages := conv.messages ++ [message]
      updatedAt := now
      title :=
        if conv.messages.length = 0 ∧ message.role = Role.user then
          generateConversationTitle message.content
        else conv.title }
  else conv

/-- The `EDIT_MESSAGE` per-conversation update (lines 57-73): replace the
content of the message matched by id, bump `updatedAt`. -/
def editMessageConv (now : Nat) (conversationId messageId content : String)
    (conv : Conversation) : Conversation :=
  if conv.id = conversationId then
    { conv with
      messages := conv.messages.map (fun msg =>
        if msg.id = messageId then { msg with content := content } else msg)
      updatedAt := now }
  else conv

/-- The `DELETE_MESSAGE` per-conversation update (lines 74-86): remove the
message matched by id, bump `updatedAt`. -/
def deleteMessageConv (now : Nat) (conversationId messageId : String)
    (conv : Conversation) : Conversation :=
  if conv.id = conversationId then
    { conv with
      messages := conv.messages.filter (fun msg => msg.id ≠ messageId)
      updatedAt := now }
  else conv

/-- `chatReducer` of `src/contexts/ChatContext.tsx` (lines 29-98).  The reads
of `new Date()` inside the `ADD_MESSAGE` / `EDIT_MESSAGE` / `DELETE_MESSAGE`
branches become the explicit `now` argument. -/
def chatReducer (now : Nat) (state : ChatState) (action : ChatAction) : ChatState :=
  match action with
  | .setConversations payload => { state with conversations := payload }
  | .addConversation payload =>
      { state with
        conversations := payload :: state.conversations
        currentConversationId := some payload.id }
  | .setCurrentConversation payload => { state with currentConversationId := some payload }
  | .addMessage conversationId message =>
      { state with
        conversations := state.conversations.map (addMessageConv now conversationId message) }
  | .editMessage conversationId messageId content =>
      { state with
        conversations :=
          state.conversations.map (editMessageConv now conversationId messageId content) }
  | .deleteMessage conversationId messageId =>
      { state with
        conversations := state.conversations.map (deleteMessageConv now conversationId messageId) }
  | .setLoading payload => { state with isLoading := payload }
  | .deleteConversation payload =>
      { state with
        conversations := state.conversations.filter (fun conv => conv.id ≠ payload)
        currentConversationId :=
          if state.currentConversationId = some payload then none
          else state.currentConversationId }

/-- The `ADD_MESSAGE` per-conversation update of the second `chatReducer` of
`src/contexts/ChatContext.tsx` (the variant at lines 278-291): append the
message, bump `updatedAt`, and derive the title for any first message - there
is no role check here - as `message.content.slice(0, 50) + '...'`. -/
def addMessageConvV (now : Nat) (conversationId : String) (message : Message)
    (conv : Conversation) : Conversation :=
  if conv.id = conversationId then
    { conv with
      messages := conv.messages ++ [message]
      updatedAt := now
      title :=
        if conv.messages.length = 0 then ⟨message.content.data.take 50⟩ ++ "..."
        else conv.title }
  else conv

/-- The variant reducer's `ADD_MESSAGE` branch at state level: map the
per-conversation update over the list. -/
def addMessageV (now : Nat) (s : ChatState) (conversationId : String)
    (message : Message) : ChatState :=
  { s with
    conversations := s.conversations.map (addMessageConvV now conversationId message) }

/-- `FileInfo` of `src/services/openai.ts` (only its shape is needed for the
reducer variant's state). -/
structure FileInfo where
  id : String
  name : String
  size : Nat
  type : String
  url : Option String
  uploadedAt : String
deriving DecidableEq, Repr

/-- The state of the reducer variant in the `ChatContextDefinition`-based
provider (same file, lines 401-494), which also tracks uploaded files and a
session id. -/
structure ChatStateB where
  conversations : List Conversation
  currentConversationId : Option String
  isLoading : Bool
  uploadedFiles : List FileInfo
  sessionId : Option String
deriving DecidableEq, Repr

/-- The `DELETE_CONVERSATION` branch of the reducer variant (lines 470-482):
when the active conversation is deleted, the pointer is reassigned to the
first remaining conversation, or cleared when none remain. -/
def deleteConversationB (state : ChatStateB) (payload : String) : ChatStateB :=
  let remainingConvs := state.conversations.filter (fun conv => conv.id ≠ payload)
  let newCurrentId :=
    if state.currentConversationId = some payload then
      match remainingConvs with
      | [] => none
      | c :: _ => some c.id
    else state.currentConversationId
  { state with
    conversations := remainingConvs
    currentConversationId := newCurrentId
    sessionId :=
      if state.currentConversationId = some payload then none else state.sessionId }

/-- One record of the module-level `rateLimitMap` in `src/lib/validation.ts`. -/
structure RateRecord where
  count : Nat
  resetTime : Nat
deriving DecidableEq, Repr

/-- The `rateLimitMap : Map<string, {count, resetTime}>`, modelled as an
association list. -/
def RLMap := List (String × RateRecord)

/-- `rateLimitMap.get(key)`. -/
def rlGet (m : RLMap) (key : String) : Option RateRecord :=
  match m with
  | [] => none
  | (k, v) :: rest => if k = key then some v else rlGet rest key

/-- `rateLimitMap.set(key, record)` (replaces an existing entry). -/
def rlSet (m : RLMap) (key : String) (r : RateRecord) : RLMap :=
  match m with
  | [] => [(key, r)]
  | (k, v) :: rest => if k = key then (k, r) :: rest else (k, v) :: rlSet rest key r

/-- `checkRateLimit` from `src/lib/validation.ts` (lines 175-199).  `Date.now()`
becomes the explicit `now`; the map is threaded explicitly, and the in-place
`record.count++` becomes an update of the entry. -/
def checkRateLimit (key : String) (maxRequests windowMs now : Nat) (m : RLMap) :
    Bool × RLMap :=
  match rlGet m key with
  | none => (true, rlSet m key ⟨1, now + windowMs⟩)
  | some record =>
      if now > record.resetTime then (true, rlSet m key ⟨1, now + windowMs⟩)
      else if record.count ≥ maxRequests then (false, m)
      else (true, rlSet m key ⟨record.count + 1, record.resetTime⟩)

/-- A sequence of `checkRateLimit` calls for one key at the given times,
collecting the returned booleans. -/
def runRateLimit (key : String) (maxRequests windowMs : Nat) :
    List Nat → RLMap → List Bool × RLMap
  | [], m => ([], m)
  | t :: ts, m =>
      let r := checkRateLimit key maxRequests windowMs t m
      let rest := runRateLimit key maxRequests windowMs ts r.2
      (r.1 :: rest.1, rest.2)

/-- Running a list of timed actions through the reducer, in dispatch order. -/
def runActions : ChatState → List (ChatAction × Nat) → ChatState
  | s, [] => s
  | s, (a, t) :: rest => runActions (chatReducer t s a) rest

/-- The message-level actions `ADD_MESSAGE`, `EDIT_MESSAGE`, `DELETE_MESSAGE`. -/
def isMessageAction : ChatAction → Bool
  | .addMessage _ _ => true
  | .editMessage _ _ _ => true
  | .deleteMessage _ _ => true
  | _ => false

/-- States with every conversation's `updatedAt` field cleared: what remains of
the reducer result once the clock-derived field is ignored. -/
def eraseUpdatedAt (s : ChatState) : ChatState :=
  { s with conversations := s.conversations.map (fun c => { c with updatedAt := 0 }) }

/-- The backtick character (code point 96). -/
def backtickChar : Char := Char.ofNat 96

/-- First occurrence of the delimiter `d` in `l`: `some (before, after)` with
`l = before ++ d ++ after` at the earliest position, `none` when absent. -/
def splitFirst (d : List Char) : List Char → Option (List Char × List Char)
  | [] => none
  | c :: cs =>
      if d.isPrefixOf (c :: cs) then some ([], (c :: cs).drop d.length)
      else
        match splitFirst d cs with
        | none => none
        | some (a, b) => some (c :: a, b)

/-- A two-sided-delimiter pass such as `/\*\*(.*?)\*\*/g`: pair each delimiter
occurrence with the next one and wrap the text between them.  The delimiter is
`d₀ :: ds` (never empty). -/
def pairPassF (d₀ : Char) (ds : List Char) (pre post : List Char) :
    Nat → List Char → List Char
  | 0, l => l
  | fuel + 1, l =>
      match splitFirst (d₀ :: ds) l with
      | none => l
      | some (a, rest) =>
          match splitFirst (d₀ :: ds) rest with
          | none => l
          | some (content, rest') =>
              a ++ pre ++ content ++ post ++ pairPassF d₀ ds pre post fuel rest'

/-- `pairPassF` with enough fuel for the whole input (every recursion step
strictly shortens the remaining text, so `l.length + 1` steps never run out). -/
def pairPass (d₀ : Char) (ds : List Char) (pre post : List Char) (l : List Char) :
    List Char :=
  pairPassF d₀ ds pre post (l.length + 1) l

/-- Split into lines, apply `f` to each line, and rejoin: the action of a
per-line pass under the `m` flag. -/
def mapLines (f : List Char → List Char) (l : List Char) : List Char :=
  List.intercalate ['\n'] ((splitChar '\n' l).map f)

/-- A line-anchored prefix pass such as `/^### (.*$)/gim`: a line starting with
`p` is rewritten to `pre ++ rest-of-line ++ post`. -/
def linePrefixPass (p : List Char) (pre post : List Char) (line : List Char) : List Char :=
  if p.isPrefixOf line then pre ++ line.drop p.length ++ post else line

/-- The unordered-list pass `/^[-*] (.*$)/gim` on one line. -/
def ulistLine (line : List Char) : List Char :=
  if "- ".data.isPrefixOf line ∨ "* ".data.isPrefixOf line then
    "<li class=\"ml-4 list-disc\">".data ++ line.drop 2 ++ "</li>".data
  else line

/-- The ordered-list pass `/^\d+\. (.*$)/gim` on one line. -/
def olistLine (line : List Char) : List Char :=
  let ds := line.takeWhile Char.isDigit
  if ds ≠ [] ∧ ". ".data.isPrefixOf (line.drop ds.length) then
    "<li class=\"ml-4 list-decimal\">".data ++ line.drop (ds.length + 2) ++ "</li>".data
  else line

/-- The inline-code pass ``/`([^`]+)`/g``: a backtick, one or more
non-backticks, a backtick; the contents are wrapped with NO escaping
(`'$1'` is interpolated raw in the source). -/
def codeSpanPassF : Nat → List Char → List Char
  | 0, l => l
  | _, [] => []
  | fuel + 1, c :: rest =>
      if c = backtickChar then
        match rest.dropWhile (fun x => x ≠ backtickChar) with
        | [] => c :: codeSpanPassF fuel rest
        | _ :: tail =>
            if rest.takeWhile (fun x => x ≠ backtickChar) = [] then
              c :: codeSpanPassF fuel rest
            else
              "<code class=\"bg-muted px-1.5 py-0.5 rounded text-sm font-mono\">".data ++
                rest.takeWhile (fun x => x ≠ backtickChar) ++ "</code>".data ++
                codeSpanPassF fuel tail
      else c :: codeSpanPassF fuel rest

/-- `codeSpanPassF` with enough fuel for the whole input (each step consumes at
least one character). -/
def codeSpanPass (l : List Char) : List Char := codeSpanPassF (l.length + 1) l

/-- HTML escaping of a single character as performed by `escapeHtml`
(`div.textContent = text; return div.innerHTML`): `&`, `<` and `>` become
entities, all other characters are unchanged. -/
def escapeHtmlChar (c : Char) : List Char :=
  if c = '&' then "&amp;".data
  else if c = '<' then "&lt;".data
  else if c = '>' then "&gt;".data
  else [c]

/-- `escapeHtml` of `src/components/MarkdownRenderer.tsx` on character lists. -/
def escapeHtmlList (l : List Char) : List Char := (l.map escapeHtmlChar).flatten

/-- `escapeHtml` of `src/components/MarkdownRenderer.tsx`. -/
def escapeHtml (text : String) : String := ⟨escapeHtmlList text.data⟩

/-- `\w` of JavaScript regexes. -/
def isWordChar (c : Char) : Bool := c.isAlpha ∨ c.isDigit ∨ c = '_'

/-- The fence delimiter, three backticks. -/
def fence3 : List Char := [backtickChar, backtickChar, backtickChar]

/-- The replacement template of the fenced-code-block pass with a language tag
(lines 32-38): the block content is HTML-escaped and trimmed before wrapping,
the language tag is interpolated raw. -/
def codeBlockReplacementLang (lang : List Char) (code : List Char) : List Char :=
  "<div class=\"bg-muted/50 border rounded-lg p-4 my-2 overflow-x-auto\">\n      <div class=\"text-xs text-muted-foreground mb-2 font-mono\">".data ++
    lang ++
    "</div>\n      <pre class=\"text-sm font-mono overflow-x-auto\"><code>".data ++
    escapeHtmlList (trimChars code) ++
    "</code></pre>\n    </div>".data

/-- The replacement template of the fenced-code-block pass without a language
tag (lines 41-45). -/
def codeBlockReplacementPlain (code : List Char) : List Char :=
  "<div class=\"bg-muted/50 border rounded-lg p-4 my-2 overflow-x-auto\">\n      <pre class=\"text-sm font-mono overflow-x-auto\"><code>".data ++
    escapeHtmlList (trimChars code) ++
    "</code></pre>\n    </div>".data

/-- The fenced-code-block pass `/```(\w+)?\n([\s\S]*?)```/g`: three backticks,
an optional word-character run, a newline, then the shortest content closed by
three backticks; `language || 'text'` supplies the displayed tag. -/
def codeBlockPassLangF : Nat → List Char → List Char
  | 0, l => l
  | _, [] => []
  | fuel + 1, c :: rest =>
      if fence3.isPrefixOf (c :: rest) then
        match ((c :: rest).drop 3).drop (((c :: rest).drop 3).takeWhile isWordChar).length with
        | nl :: body =>
            if nl = '\n' then
              match splitFirst fence3 body with
              | some (code, after) =>
                  codeBlockReplacementLang
                      (if (((c :: rest).drop 3).takeWhile isWordChar).isEmpty then "text".data
                       else ((c :: rest).drop 3).takeWhile isWordChar) code ++
                    codeBlockPassLangF fuel after
              | none => c :: codeBlockPassLangF fuel rest
            else c :: codeBlockPassLangF fuel rest
        | [] => c :: codeBlockPassLangF fuel rest
      else c :: codeBlockPassLangF fuel rest

/-- `codeBlockPassLangF` with enough fuel for the whole input. -/
def codeBlockPassLang (l : List Char) : List Char := codeBlockPassLangF (l.length + 1) l

/-- The fenced-code-block pass without a language tag, `/```\n([\s\S]*?)```/g`. -/
def codeBlockPassPlainF : Nat → List Char → List Char
  | 0, l => l
  | _, [] => []
  | fuel + 1, c :: rest =>
      if (fence3 ++ ['\n']).isPrefixOf (c :: rest) then
        match splitFirst fence3 ((c :: rest).drop 4) with
        | some (code, after) =>
            codeBlockReplacementPlain code ++ codeBlockPassPlainF fuel after
        | none => c :: codeBlockPassPlainF fuel rest
      else c :: codeBlockPassPlainF fuel rest

/-- `codeBlockPassPlainF` with enough fuel for the whole input. -/
def codeBlockPassPlain (l : List Char) : List Char := codeBlockPassPlainF (l.length + 1) l

/-- The replacement of the link pass (line 48). -/
def linkReplacement (txt url : List Char) : List Char :=
  "<a href=\"".data ++ url ++
    "\" class=\"text-primary hover:underline\" target=\"_blank\" rel=\"noopener noreferrer\">".data ++
    txt ++ "</a>".data

/-- The link pass `/\[([^\]]+)\]\(([^)]+)\)/g`. -/
def linkPassF : Nat → List Char → List Char
  | 0, l => l
  | _, [] => []
  | fuel + 1, c :: rest =>
      if c = '[' then
        match rest.dropWhile (fun x => x ≠ ']') with
        | ']' :: '(' :: r2 =>
            if rest.takeWhile (fun x => x ≠ ']') = [] then c :: linkPassF fuel rest
            else
              match r2.dropWhile (fun x => x ≠ ')') with
              | ')' :: tail =>
                  if r2.takeWhile (fun x => x ≠ ')') = [] then c :: linkPassF fuel rest
                  else
                    linkReplacement (rest.takeWhile (fun x => x ≠ ']'))
                        (r2.takeWhile (fun x => x ≠ ')')) ++
                      linkPassF fuel tail
              | _ => c :: linkPassF fuel rest
        | _ => c :: linkPassF fuel rest
      else c :: linkPassF fuel rest

/-- `linkPassF` with enough fuel for the whole input. -/
def linkPass (l : List Char) : List Char := linkPassF (l.length + 1) l

/-- Last occurrence of the delimiter `d₀ :: ds` in `l`. -/
def splitLastF (d₀ : Char) (ds : List Char) : Nat → List Char →
    Option (List Char × List Char)
  | 0, _ => none
  | fuel + 1, l =>
      match splitFirst (d₀ :: ds) l with
      | none => none
      | some (a, b) =>
          match splitLastF d₀ ds fuel b with
          | none => some (a, b)
          | some (a', b') => some (a ++ (d₀ :: ds) ++ a', b')

/-- Last occurrence of the delimiter `d₀ :: ds` in `l` (`splitLastF` with
enough fuel for the whole input). -/
def splitLast (d₀ : Char) (ds : List Char) (l : List Char) :
    Option (List Char × List Char) :=
  splitLastF d₀ ds (l.length + 1) l

/-- The single (non-global) wrapping substitution
`/(<li.*<\/li>)/s → '<ul class="my-2">$1</ul>'` (line 55): greedy `.` with the
`s` flag spans from the first `<li` to the last `</li>`. -/
def ulWrapPass (l : List Char) : List Char :=
  match splitFirst "<li".data l with
  | none => l
  | some (a, rest) =>
      match splitLast '<' "/li>".data rest with
      | none => l
      | some (mid, after) =>
          a ++ "<ul class=\"my-2\">".data ++ "<li".data ++ mid ++ "</li>".data ++
            "</ul>".data ++ after

/-- The line-break pass `/\n/g → '<br>'` (line 61). -/
def lineBreakPass (l : List Char) : List Char :=
  (l.map (fun c => if c = '\n' then "<br>".data else [c])).flatten

/-- A checkbox pass (lines 64-65, patterns `- \[ \] (.*)` and `- \[x\] (.*)`,
global, not line-anchored): the pattern `p₀ :: p` anywhere in the text, with
`.*` capturing up to the next newline or the end. -/
def checkboxPassF (p₀ : Char) (p : List Char) (pre post : List Char) :
    Nat → List Char → List Char
  | 0, l => l
  | _, [] => []
  | fuel + 1, c :: rest =>
      if (p₀ :: p).isPrefixOf (c :: rest) then
        pre ++ ((c :: rest).drop (p.length + 1)).takeWhile (fun x => x ≠ '\n') ++ post ++
          checkboxPassF p₀ p pre post fuel
            (((c :: rest).drop (p.length + 1)).dropWhile (fun x => x ≠ '\n'))
      else c :: checkboxPassF p₀ p pre post fuel rest

/-- `checkboxPassF` with enough fuel for the whole input. -/
def checkboxPass (p₀ : Char) (p : List Char) (pre post : List Char) (l : List Char) :
    List Char :=
  checkboxPassF p₀ p pre post (l.length + 1) l

/-- `parseMarkdown` of `src/components/MarkdownRenderer.tsx` (lines 9-68): the
fixed ordered chain of substitution passes. -/
def parseMarkdown (text : String) : String :=
  let html := text.data
  -- Headers (### ## #)
  let html := mapLines (linePrefixPass "### ".data
    "<h3 class=\"font-bold text-lg mb-2 mt-4\">".data "</h3>".data) html
  let html := mapLines (linePrefixPass "## ".data
    "<h2 class=\"font-bold text-xl mb-2 mt-4\">".data "</h2>".data) html
  let html := mapLines (linePrefixPass "# ".data
    "<h1 class=\"font-bold text-2xl mb-2 mt-4\">".data "</h1>".data) html
  -- Bold **text** or __text__
  let html := mapLines (pairPass '*' ['*']
    "<strong class=\"font-semibold\">".data "</strong>".data) html
  let html := mapLines (pairPass '_' ['_']
    "<strong class=\"font-semibold\">".data "</strong>".data) html
  -- Italic *text* or _text_
  let html := mapLines (pairPass '*' [] "<em class=\"italic\">".data "</em>".data) html
  let html := mapLines (pairPass '_' [] "<em class=\"italic\">".data "</em>".data) html
  -- Strikethrough ~~text~~
  let html := mapLines (pairPass '~' ['~']
    "<del class=\"line-through opacity-75\">".data "</del>".data) html
  -- Inline code `code`
  let html := codeSpanPass html
  -- Code blocks with and without a language tag
  let html := codeBlockPassLang html
  let html := codeBlockPassPlain html
  -- Links [text](url)
  let html := linkPass html
  -- Blockquotes > text
  let html := mapLines (linePrefixPass "> ".data
    "<blockquote class=\"border-l-4 border-muted-foreground/20 pl-4 italic text-muted-foreground my-2\">".data
    "</blockquote>".data) html
  -- Unordered lists - item or * item
  let html := mapLines ulistLine html
  let html := ulWrapPass html
  -- Ordered lists 1. item
  let html := mapLines olistLine html
  -- Line breaks
  let html := lineBreakPass html
  -- Checkboxes - [ ] and - [x]
  let html := checkboxPass '-' " [ ] ".data
    "<div class=\"flex items-center gap-2 my-1\"><input type=\"checkbox\" disabled class=\"h-4 w-4\" /> <span>".data
    "</span></div>".data html
  let html := checkboxPass '-' " [x] ".data
    "<div class=\"flex items-center gap-2 my-1\"><input type=\"checkbox\" checked disabled class=\"h-4 w-4\" /> <span>".data
    "</span></div>".data html
  ⟨html⟩

/-- Substring test, via `splitFirst`. -/
def containsSub (sub l : List Char) : Bool := (splitFirst sub l).isSome

/-- Day-of-era: position of day `z` (days since 1970-01-01) inside its 146097-day
Gregorian era, after shifting the epoch to 0000-03-01 (Hinnant civil-calendar
algorithm, used here to model the UTC calendar arithmetic of ECMAScript `Date`). -/
def doeOf (z : Nat) : Nat := (z + 719468) % 146097

/-- Era index of day `z`: which 400-year cycle it falls in. -/
def eraOf (z : Nat) : Nat := (z + 719468) / 146097

/-- Year-of-era (0 to 399) from the day-of-era. -/
def yoeOfDoe (doe : Nat) : Nat := (doe - doe / 1460 + doe / 36524 - doe / 146096) / 365

/-- Start day-of-era of a year-of-era. -/
def soyOfYoe (yoe : Nat) : Nat := 365 * yoe + yoe / 4 - yoe / 100

/-- Day-of-year (0 to 365, March-based) from the day-of-era. -/
def doyOfDoe (doe : Nat) : Nat := doe - soyOfYoe (yoeOfDoe doe)

/-- March-based month index (0 to 11) of a day-of-year. -/
def mpOfDoy (doy : Nat) : Nat := (5 * doy + 2) / 153

/-- Day of month (1 to 31) of a day-of-year. -/
def dayOfDoy (doy : Nat) : Nat := doy - (153 * mpOfDoy doy + 2) / 5 + 1

/-- Civil month (1 to 12) from the March-based month index. -/
def monthOfMp (mp : Nat) : Nat := if mp < 10 then mp + 3 else mp - 9

/-- Civil UTC date `(year, month, day)` of day `z` since 1970-01-01: the calendar
computation behind `Date.prototype.toISOString`, for nonnegative day counts. -/
def civilFromDays (z : Nat) : Nat × Nat × Nat :=
  let y := yoeOfDoe (doeOf z) + eraOf z * 400
  let m := monthOfMp (mpOfDoy (doyOfDoe (doeOf z)))
  (if m ≤ 2 then y + 1 else y, m, dayOfDoy (doyOfDoe (doeOf z)))

/-- Days since 1970-01-01 of a civil UTC date: the calendar computation behind
parsing an ISO date string with `new Date(s)`. -/
def daysFromCivil (y m d : Nat) : Nat :=
  let yy := if m ≤ 2 then y - 1 else y
  let doy := (153 * (if m > 2 then m - 3 else m + 9) + 2) / 5 + d - 1
  let doe := yy % 400 * 365 + yy % 400 / 4 - yy % 400 / 100 + doy
  yy / 400 * 146097 + doe - 719468

/-- Decimal digit character. -/
def digitChar (n : Nat) : Char := Char.ofNat (48 + n)

/-- Two-digit zero-padded decimal rendering, as in `toISOString`. -/
def pad2 (n : Nat) : List Char := [digitChar (n / 10 % 10), digitChar (n % 10)]

/-- Three-digit zero-padded decimal rendering (milliseconds). -/
def pad3 (n : Nat) : List Char :=
  [digitChar (n / 100 % 10), digitChar (n / 10 % 10), digitChar (n % 10)]

/-- Four-digit zero-padded decimal rendering (years). -/
def pad4 (n : Nat) : List Char :=
  [digitChar (n / 1000 % 10), digitChar (n / 100 % 10), digitChar (n / 10 % 10),
    digitChar (n % 10)]

/-- Models `Date.prototype.toISOString` for timestamps before the year 10000: the
24-character `YYYY-MM-DDTHH:mm:ss.sssZ` form. `JSON.stringify` serialises the
`Date` fields of a `Conversation` through exactly this string (via `Date.toJSON`). -/
def toISOString (t : Nat) : String :=
  ⟨pad4 (civilFromDays (t / 86400000)).1 ++ '-' ::
    (pad2 (civilFromDays (t / 86400000)).2.1 ++ '-' ::
      (pad2 (civilFromDays (t / 86400000)).2.2 ++ 'T' ::
        (pad2 (t / 3600000 % 24) ++ ':' ::
          (pad2 (t / 60000 % 60) ++ ':' ::
            (pad2 (t / 1000 % 60) ++ '.' :: (pad3 (t % 1000) ++ ['Z']))))))⟩

/-- Numeric value of a decimal digit character. -/
def digitVal (c : Char) : Nat := c.toNat - 48

/-- Consume one expected literal character of an ISO date string. -/
def expectChar (c : Char) : List Char → Option (List Char)
  | x :: rest => if x = c then some rest else none
  | [] => none

/-- Consume exactly `w` decimal digits, accumulating their value. -/
def parseNAux : Nat → Nat → List Char → Option (Nat × List Char)
  | 0, acc, l => some (acc, l)
  | w + 1, acc, c :: l => if c.isDigit then parseNAux w (acc * 10 + digitVal c) l else none
  | _ + 1, _, [] => none

/-- Parse a sequence of fixed-width decimal fields, each followed by one literal
separator character, consuming the whole input. -/
def parseFields : List (Nat × Char) → List Char → Option (List Nat)
  | [], l => if l = [] then some [] else none
  | (w, c) :: fs, l =>
      match parseNAux w 0 l with
      | none => none
      | some (n, r) =>
          match expectChar c r with
          | none => none
          | some r2 =>
              match parseFields fs r2 with
              | none => none
              | some ns => some (n :: ns)

/-- Models `new Date(s).getTime()` on the 24-character ISO form that `toISOString`
produces: the millisecond timestamp when the string parses (ECMAScript
date-time string interpretation, UTC), `none` when JS would yield an Invalid Date. -/
def parseISODate (s : String) : Option Nat :=
  match parseFields [(4, '-'), (2, '-'), (2, 'T'), (2, ':'), (2, ':'), (2, '.'), (3, 'Z')]
      s.data with
  | some [y, mo, d, h, mi, sec, ms] =>
      some (daysFromCivil y mo d * 86400000 + h * 3600000 + mi * 60000 + sec * 1000 + ms)
  | _ => none

/-- JSON values: the abstract result of `JSON.parse` on a stored string. The
persistence layer of `src/unnamed/part_004` writes and re-reads conversations
through such values. -/
inductive Json where
  | null : Json
  | bool (b : Bool) : Json
  | num (n : Int) : Json
  | str (s : String) : Json
  | arr (elems : List Json) : Json
  | obj (fields : List (String × Json)) : Json

/-- What `localStorage.getItem` can yield for the conversations key: no entry
(`null`, falsy), a string `JSON.parse` throws on (the empty string, also falsy,
takes the same fallback branch), or a string that parses to a JSON value. -/
inductive StoredText where
  | absent : StoredText
  | unparsable : StoredText
  | parsed (j : Json) : StoredText

/-- `safeJsonParse` (`src/unnamed/part_004` lines 16-23): the fallback when the
value is absent or fails to parse, the parsed value otherwise. It never throws. -/
def safeJsonParse (value : StoredText) (fallback : Json) : Json :=
  match value with
  | StoredText.absent => fallback
  | StoredText.unparsable => fallback
  | StoredText.parsed j => j

/-- The role string stored for a message (`'user' | 'assistant' | 'system'`). -/
def roleToString : Role → String
  | Role.user => "user"
  | Role.assistant => "assistant"
  | Role.system => "system"

/-- Reading a role string back into the closed enum. -/
def roleOfString (s : String) : Option Role :=
  if s = "user" then some Role.user
  else if s = "assistant" then some Role.assistant
  else if s = "system" then some Role.system
  else none

/-- `JSON.stringify` of a `Message`: the `Date` timestamp serialises through
`toISOString` (`Date.prototype.toJSON`), and an `undefined` optional
`attachments` field is omitted from the output object. -/
def encodeMessage (m : Message) : Json :=
  Json.obj
    ([("id", Json.str m.id), ("content", Json.str m.content),
      ("role", Json.str (roleToString m.role)),
      ("timestamp", Json.str (toISOString m.timestamp))] ++
      (match m.attachments with
       | none => []
       | some atts => [("attachments", Json.arr (atts.map Json.str))]))

/-- `JSON.stringify` of a `Conversation`: `createdAt` and `updatedAt` serialise as
ISO strings, messages through `encodeMessage`. -/
def encodeConversation (c : Conversation) : Json :=
  Json.obj
    [("id", Json.str c.id), ("title", Json.str c.title),
     ("messages", Json.arr (c.messages.map encodeMessage)),
     ("createdAt", Json.str (toISOString c.createdAt)),
     ("updatedAt", Json.str (toISOString c.updatedAt))]

/-- `conversationStorage.save` (lines 27-33): stores `JSON.stringify(conversations)`
under the conversations key, so the stored text parses back to the encoded value. -/
def saveConversations (cs : List Conversation) : StoredText :=
  StoredText.parsed (Json.arr (cs.map encodeConversation))

/-- JS property access `obj.key` on a parsed JSON object. -/
def getField : List (String × Json) → String → Option Json
  | [], _ => none
  | (k, v) :: rest, key => if k = key then some v else getField rest key

/-- A field value that is present and a string. -/
def asStr : Option Json → Option String
  | some (Json.str s) => some s
  | _ => none

/-- A JSON array whose elements are all strings (an `attachments` value). -/
def strListOf : List Json → Option (List String)
  | [] => some []
  | Json.str s :: rest => (strListOf rest).map (fun l => s :: l)
  | _ => none

/-- The optional `attachments` field: absent stays absent, an array of strings is
kept. -/
def decodeAttachments : Option Json → Option (Option (List String))
  | none => some none
  | some (Json.arr l) => (strListOf l).map (fun x => some x)
  | _ => none

/-- The message branch of `conversationStorage.load`:
`{ ...msg, timestamp: new Date(msg.timestamp) }`. The model decodes into the
typed `Message` structure, so shapes whose spread would produce ill-typed fields
(non-string `id`, unknown `role`, unparsable `timestamp`) come out as errors; this
over-approximates the JS, which lets such junk values flow through untyped. On
the images of `encodeMessage` - all that reaches it through `save` - the two
agree exactly. -/
def decodeMessage (j : Json) : Except String Message :=
  match j with
  | Json.obj fields =>
      match asStr (getField fields "id"), asStr (getField fields "content"),
          (asStr (getField fields "role")).bind roleOfString,
          (asStr (getField fields "timestamp")).bind parseISODate,
          decodeAttachments (getField fields "attachments") with
      | some mid, some content, some role, some t, some atts =>
          Except.ok ⟨mid, content, role, t, atts⟩
      | _, _, _, _, _ => Except.error "bad message"
  | _ => Except.error "bad message"

/-- `conv.messages.map(...)` over message values, propagating the first failure. -/
def mapDecode : List Json → Except String (List Message)
  | [] => Except.ok []
  | j :: rest =>
      match decodeMessage j with
      | Except.error e => Except.error e
      | Except.ok m =>
          match mapDecode rest with
          | Except.error e => Except.error e
          | Except.ok ms => Except.ok (m :: ms)

/-- The conversation branch of `conversationStorage.load` (lines 40-48): spread
with `createdAt`, `updatedAt` re-read as dates and `messages` mapped through the
message branch. A missing or non-array `messages` field makes the JS throw a
TypeError (`conv.messages.map is not a function`); the remaining mismatches are
the typing over-approximation noted at `decodeMessage`. -/
def decodeConversation (j : Json) : Except String Conversation :=
  match j with
  | Json.obj fields =>
      match getField fields "messages" with
      | some (Json.arr msgs) =>
          match mapDecode msgs with
          | Except.error e => Except.error e
          | Except.ok ms =>
              match asStr (getField fields "id"), asStr (getField fields "title"),
                  (asStr (getField fields "createdAt")).bind parseISODate,
                  (asStr (getField fields "updatedAt")).bind parseISODate with
              | some cid, some title, some ca, some ua =>
                  Except.ok ⟨cid, title, ms, ca, ua⟩
              | _, _, _, _ => Except.error "bad conversation"
      | _ => Except.error "conv.messages.map is not a function"
  | _ => Except.error "conv.messages.map is not a function"

/-- `conversations.map(...)` over conversation values, propagating the first
failure. -/
def mapDecodeConv : List Json → Except String (List Conversation)
  | [] => Except.ok []
  | j :: rest =>
      match decodeConversation j with
      | Except.error e => Except.error e
      | Except.ok c =>
          match mapDecodeConv rest with
          | Except.error e => Except.error e
          | Except.ok cs => Except.ok (c :: cs)

/-- `conversationStorage.load` (lines 35-49): `safeJsonParse` with fallback `[]`,
then a `.map` over the result. When the parsed JSON is not an array, the `.map`
call itself raises a TypeError to the caller, modelled by `Except.error`. -/
def loadConversations (st : StoredText) : Except String (List Conversation) :=
  match safeJsonParse st (Json.arr []) with
  | Json.arr convs => mapDecodeConv convs
  | _ => Except.error "conversations.map is not a function"

/-- Well-formed message: its timestamp is before the year 10000, the range on
which the 24-character `toISOString` model is exact. -/
def messageWF (m : Message) : Bool := decide (m.timestamp < 253402300800000)

/-- Well-formed conversation: both dates and all message timestamps are before
the year 10000. -/
def convWF (c : Conversation) : Bool :=
  decide (c.createdAt < 253402300800000) && decide (c.updatedAt < 253402300800000) &&
    c.messages.all messageWF

/-- Whether a JSON value is an array (whether a `.map` method exists on it). -/
def isArrJson : Json → Bool
  | Json.arr _ => true
  | _ => false

/-- Helper for C3: the reassigned pointer over any remaining list is `none` or
the id of a member. -/
theorem headPointer_ok (rem : List Conversation) :
    (match rem with | [] => none | c :: _ => some c.id) = none ∨
      ∃ c ∈ rem, (match rem with | [] => (none : Option String) | c :: _ => some c.id) = some c.id := by
  cases rem with
  | nil => exact Or.inl rfl
  | cons c rest => exact Or.inr ⟨c, List.mem_cons_self _ _, rfl⟩

/-- C3: deleting the conversation the active pointer refers to leaves the
pointer either `none` or equal to the id of a conversation still present, in
both the primary reducer and the `ChatContextDefinition` variant. -/
theorem deleteConversation_activePointer (now : Nat) (s : ChatState) (sB : ChatStateB)
    (cid : String) (h : s.currentConversationId = some cid)
    (hpres : ∃ c ∈ s.conversations, c.id = cid)
    (hB : sB.currentConversationId = some cid)
    (hpresB : ∃ c ∈ sB.conversations, c.id = cid) :
    ((chatReducer now s (.deleteConversation cid)).currentConversationId = none ∨
      ∃ c ∈ (chatReducer now s (.deleteConversation cid)).conversations,
        (chatReducer now s (.deleteConversation cid)).currentConversationId = some c.id) ∧
    ((deleteConversationB sB cid).currentConversationId = none ∨
      ∃ c ∈ (deleteConversationB sB cid).conversations,
        (deleteConversationB sB cid).currentConversationId = some c.id) := by
  constructor
  · left
    simp [chatReducer, h]
  · unfold deleteConversationB
    rw [hB]
    dsimp only
    rw [if_pos rfl]
    show (match sB.conversations.filter (fun conv => conv.id ≠ cid) with
        | [] => none | c :: _ => some c.id) = none ∨
      ∃ c ∈ sB.conversations.filter (fun conv => conv.id ≠ cid),
        (match sB.conversations.filter (fun conv => conv.id ≠ cid) with
          | [] => (none : Option String) | c :: _ => some c.id) = some c.id
    exact headPointer_ok _

/-- C3 witness. -/
theorem deleteConversation_activePointer_witness :
    ((chatReducer 5 ⟨[⟨"a", "t", [], 0, 0⟩], some "a", false⟩
        (.deleteConversation "a")).currentConversationId = none ∨
      ∃ c ∈ (chatReducer 5 ⟨[⟨"a", "t", [], 0, 0⟩], some "a", false⟩
          (.deleteConversation "a")).conversations,
        (chatReducer 5 ⟨[⟨"a", "t", [], 0, 0⟩], some "a", false⟩
            (.deleteConversation "a")).currentConversationId = some c.id) ∧
    ((deleteConversationB ⟨[⟨"a", "t", [], 0, 0⟩, ⟨"b", "u", [], 0, 0⟩], some "a", false, [], none⟩
        "a").currentConversationId = none ∨
      ∃ c ∈ (deleteConversationB ⟨[⟨"a", "t", [], 0, 0⟩, ⟨"b", "u", [], 0, 0⟩], some "a", false, [], none⟩
          "a").conversations,
        (deleteConversationB ⟨[⟨"a", "t", [], 0, 0⟩, ⟨"b", "u", [], 0, 0⟩], some "a", false, [], none⟩
            "a").currentConversationId = some c.id) :=
  deleteConversation_activePointer 5 ⟨[⟨"a", "t", [], 0, 0⟩], some "a", false⟩
    ⟨[⟨"a", "t", [], 0, 0⟩, ⟨"b", "u", [], 0, 0⟩], some "a", false, [], none⟩ "a"
    rfl ⟨⟨"a", "t", [], 0, 0⟩, by simp⟩ rfl ⟨⟨"a", "t", [], 0, 0⟩, by simp⟩

/-- C4: starting from a state where every conversation sharing the tracked
conversation's id satisfies `createdAt ≤ updatedAt` (as a freshly created
conversation does, with `updatedAt = createdAt`), any sequence of message
actions whose clock readings are at least the creation time preserves
`createdAt ≤ updatedAt` for that conversation. -/
theorem updatedAt_ge_createdAt (c₀ : Conversation) (acts : List (ChatAction × Nat))
    (s : ChatState)
    (hacts : ∀ p ∈ acts, isMessageAction p.1 = true)
    (htimes : ∀ p ∈ acts, c₀.createdAt ≤ p.2)
    (hinv : ∀ c ∈ s.conversations, c.id = c₀.id →
      c.createdAt = c₀.createdAt ∧ c.createdAt ≤ c.updatedAt) :
    ∀ c ∈ (runActions s acts).conversations, c.id = c₀.id →
      c.createdAt = c₀.createdAt ∧ c.createdAt ≤ c.updatedAt := by
  induction acts generalizing s with
  | nil => simpa [runActions] using hinv
  | cons p rest ih =>
      obtain ⟨a, t⟩ := p
      have ha : isMessageAction a = true := hacts (a, t) (List.mem_cons_self _ _)
      have ht : c₀.createdAt ≤ t := htimes (a, t) (List.mem_cons_self _ _)
      refine ih _ (fun q hq => hacts q (List.mem_cons_of_mem _ hq))
        (fun q hq => htimes q (List.mem_cons_of_mem _ hq)) ?_
      cases a with
      | addMessage cid msg =>
          intro c hc hcid
          simp only [chatReducer, List.mem_map] at hc
          obtain ⟨c', hc', rfl⟩ := hc
          unfold addMessageConv at hcid ⊢
          by_cases hid : c'.id = cid
          · rw [if_pos hid] at hcid ⊢
            have hcc : c'.id = c₀.id := hcid
            obtain ⟨h1, h2⟩ := hinv c' hc' hcc
            refine ⟨h1, ?_⟩
            show c'.createdAt ≤ t
            omega
          · rw [if_neg hid] at hcid ⊢
            exact hinv c' hc' hcid
      | editMessage cid mid content =>
          intro c hc hcid
          simp only [chatReducer, List.mem_map] at hc
          obtain ⟨c', hc', rfl⟩ := hc
          unfold editMessageConv at hcid ⊢
          by_cases hid : c'.id = cid
          · rw [if_pos hid] at hcid ⊢
            have hcc : c'.id = c₀.id := hcid
            obtain ⟨h1, h2⟩ := hinv c' hc' hcc
            refine ⟨h1, ?_⟩
            show c'.createdAt ≤ t
            omega
          · rw [if_neg hid] at hcid ⊢
            exact hinv c' hc' hcid
      | deleteMessage cid mid =>
          intro c hc hcid
          simp only [chatReducer, List.mem_map] at hc
          obtain ⟨c', hc', rfl⟩ := hc
          unfold deleteMessageConv at hcid ⊢
          by_cases hid : c'.id = cid
          · rw [if_pos hid] at hcid ⊢
            have hcc : c'.id = c₀.id := hcid
            obtain ⟨h1, h2⟩ := hinv c' hc' hcc
            refine ⟨h1, ?_⟩
            show c'.createdAt ≤ t
            omega
          · rw [if_neg hid] at hcid ⊢
            exact hinv c' hc' hcid
      | setConversations payload => simp [isMessageAction] at ha
      | addConversation payload => simp [isMessageAction] at ha
      | setCurrentConversation payload => simp [isMessageAction] at ha
      | setLoading payload => simp [isMessageAction] at ha
      | deleteConversation payload => simp [isMessageAction] at ha

/-- C4 witness: after an add, an edit and a delete at times 11, 12, 13, the
conversation created at time 10 sits in the store with `createdAt = 10` and
`createdAt ≤ updatedAt`. -/
theorem updatedAt_ge_createdAt_witness :
    (⟨"a", "hi", [], 10, 13⟩ : Conversation) ∈
        (runActions ⟨[⟨"a", "t", [], 10, 10⟩], some "a", false⟩
          [(.addMessage "a" ⟨"m", "hi", .user, 11, none⟩, 11),
           (.editMessage "a" "m" "hello", 12),
           (.deleteMessage "a" "m", 13)]).conversations ∧
      (⟨"a", "hi", [], 10, 13⟩ : Conversation).createdAt = 10 ∧
      (⟨"a", "hi", [], 10, 13⟩ : Conversation).createdAt ≤
        (⟨"a", "hi", [], 10, 13⟩ : Conversation).updatedAt := by
  have h := updatedAt_ge_createdAt ⟨"a", "t", [], 10, 10⟩
    [(.addMessage "a" ⟨"m", "hi", .user, 11, none⟩, 11),
     (.editMessage "a" "m" "hello", 12),
     (.deleteMessage "a" "m", 13)]
    ⟨[⟨"a", "t", [], 10, 10⟩], some "a", false⟩
    (by decide) (by decide) (by decide)
    ⟨"a", "hi", [], 10, 13⟩ (by decide) (by decide)
  exact ⟨by decide, h⟩

/-- C5 (amended): the primary reducer's `ADD_MESSAGE` (lines 41-56) sets the
target conversation's title via `generateConversationTitle` exactly when that
conversation currently has zero messages and the message is user-authored; the
variant reducer's `ADD_MESSAGE` (lines 278-291) sets it whenever the
conversation currently has zero messages, with no role check, to the first 50
characters of the content followed by `...`.  In both, every other
conversation, and every other case, keeps its title. -/
theorem addMessage_titleRule (now : Nat) (s : ChatState) (cid : String) (msg : Message) :
    ((chatReducer now s (.addMessage cid msg)).conversations.map (fun c => c.title) =
      s.conversations.map (fun c =>
        if c.id = cid ∧ c.messages = [] ∧ msg.role = Role.user then
          generateConversationTitle msg.content
        else c.title)) ∧
    ((addMessageV now s cid msg).conversations.map (fun c => c.title) =
      s.conversations.map (fun c =>
        if c.id = cid ∧ c.messages = [] then (⟨msg.content.data.take 50⟩ : String) ++ "..."
        else c.title)) := by
  constructor
  · show (s.conversations.map (addMessageConv now cid msg)).map (fun c => c.title) = _
    rw [List.map_map]
    refine List.map_congr_left (fun c _ => ?_)
    show (addMessageConv now cid msg c).title = _
    unfold addMessageConv
    by_cases hid : c.id = cid
    · rw [if_pos hid]
      show (if c.messages.length = 0 ∧ msg.role = Role.user then
          generateConversationTitle msg.content else c.title) = _
      by_cases hme : c.messages = []
      · have hlen : c.messages.length = 0 := by simp [hme]
        simp [hid, hme, hlen]
      · have hlen : ¬c.messages.length = 0 := by simpa using hme
        simp [hid, hme, hlen]
    · rw [if_neg hid]
      simp [hid]
  · show (s.conversations.map (addMessageConvV now cid msg)).map (fun c => c.title) = _
    rw [List.map_map]
    refine List.map_congr_left (fun c _ => ?_)
    show (addMessageConvV now cid msg c).title = _
    unfold addMessageConvV
    by_cases hid : c.id = cid
    · rw [if_pos hid]
      show (if c.messages.length = 0 then (⟨msg.content.data.take 50⟩ : String) ++ "..."
          else c.title) = _
      by_cases hme : c.messages = []
      · have hlen : c.messages.length = 0 := by simp [hme]
        simp [hid, hme, hlen]
      · have hlen : ¬c.messages.length = 0 := by simpa using hme
        simp [hid, hme, hlen]
    · rw [if_neg hid]
      simp [hid]

/-- C5 counterexample, refuting the original claim at both cited reducers.
Against "exactly once over the conversation's lifetime" (primary reducer): a
user message lands in the empty conversation and the title is derived from it;
after the message is deleted the conversation is empty again, and a second
user message makes the reducer derive the title a second time.  Against
"exactly when ... the added message's role is user" (variant reducer, lines
278-291): a first assistant-authored message also sets the title, to
`content.slice(0, 50) + '...'`. -/
theorem addMessage_title_regenerated :
    ((chatReducer 1 ⟨[⟨"c", "New Chat", [], 0, 0⟩], some "c", false⟩
        (.addMessage "c" ⟨"m1", "First topic", .user, 1, none⟩)).conversations.map
          (fun c => c.title) = ["First topic"]) ∧
    ((runActions ⟨[⟨"c", "New Chat", [], 0, 0⟩], some "c", false⟩
        [(.addMessage "c" ⟨"m1", "First topic", .user, 1, none⟩, 1),
         (.deleteMessage "c" "m1", 2),
         (.addMessage "c" ⟨"m2", "Second topic", .user, 3, none⟩, 3)]).conversations.map
          (fun c => c.title) = ["Second topic"]) ∧
    ((addMessageV 1 ⟨[⟨"c", "New Chat", [], 0, 0⟩], some "c", false⟩
        "c" ⟨"m1", "Hello there", .assistant, 1, none⟩).conversations.map
          (fun c => c.title) = ["Hello there..."]) := by decide

/-- Pointwise clock-independence of the `ADD_MESSAGE` conversation update. -/
theorem eraseAdd (n₁ n₂ : Nat) (cid : String) (msg : Message) (c : Conversation) :
    ({ addMessageConv n₁ cid msg c with updatedAt := 0 } : Conversation) =
      { addMessageConv n₂ cid msg c with updatedAt := 0 } := by
  unfold addMessageConv
  by_cases hid : c.id = cid <;> simp [hid]

/-- Pointwise clock-independence of the `EDIT_MESSAGE` conversation update. -/
theorem eraseEdit (n₁ n₂ : Nat) (cid mid content : String) (c : Conversation) :
    ({ editMessageConv n₁ cid mid content c with updatedAt := 0 } : Conversation) =
      { editMessageConv n₂ cid mid content c with updatedAt := 0 } := by
  unfold editMessageConv
  by_cases hid : c.id = cid <;> simp [hid]

/-- Pointwise clock-independence of the `DELETE_MESSAGE` conversation update. -/
theorem eraseDelete (n₁ n₂ : Nat) (cid mid : String) (c : Conversation) :
    ({ deleteMessageConv n₁ cid mid c with updatedAt := 0 } : Conversation) =
      { deleteMessageConv n₂ cid mid c with updatedAt := 0 } := by
  unfold deleteMessageConv
  by_cases hid : c.id = cid <;> simp [hid]

/-- C6 (amended): the reducer is a pure function of state, action and the
dispatch-time clock reading, and apart from the `updatedAt` fields (which are
set to that clock reading) its result does not depend on the clock at all. -/
theorem reducer_deterministic_given_clock (s : ChatState) (a : ChatAction) (n₁ n₂ : Nat) :
    eraseUpdatedAt (chatReducer n₁ s a) = eraseUpdatedAt (chatReducer n₂ s a) := by
  cases a with
  | addMessage cid msg =>
      unfold eraseUpdatedAt
      show ChatState.mk _ _ _ = ChatState.mk _ _ _
      simp only [chatReducer, List.map_map]
      congr 1
      exact List.map_congr_left (fun c _ => eraseAdd n₁ n₂ cid msg c)
  | editMessage cid mid content =>
      unfold eraseUpdatedAt
      show ChatState.mk _ _ _ = ChatState.mk _ _ _
      simp only [chatReducer, List.map_map]
      congr 1
      exact List.map_congr_left (fun c _ => eraseEdit n₁ n₂ cid mid content c)
  | deleteMessage cid mid =>
      unfold eraseUpdatedAt
      show ChatState.mk _ _ _ = ChatState.mk _ _ _
      simp only [chatReducer, List.map_map]
      congr 1
      exact List.map_congr_left (fun c _ => eraseDelete n₁ n₂ cid mid c)
  | setConversations payload => rfl
  | addConversation payload => rfl
  | setCurrentConversation payload => rfl
  | setLoading payload => rfl
  | deleteConversation payload => rfl

/-- C6 counterexample: the same state and same action dispatched at two
different clock readings produce different states (`updatedAt` differs), so
the reducer as written — which reads `new Date()` internally — is not a
function of state and action alone. -/
theorem reducer_depends_on_clock :
    chatReducer 0 ⟨[⟨"c", "t", [], 0, 0⟩], some "c", false⟩
        (.addMessage "c" ⟨"m", "hi", .user, 0, none⟩) ≠
      chatReducer 1 ⟨[⟨"c", "t", [], 0, 0⟩], some "c", false⟩
        (.addMessage "c" ⟨"m", "hi", .user, 0, none⟩) := by decide

/-- C10: for a conversation id present in the store and a message id matching
no message of any conversation carrying that id, `EDIT_MESSAGE` and
`DELETE_MESSAGE` leave every message list unchanged element for element, yet
still replace the targeted conversation's `updatedAt` with the current time. -/
theorem editDelete_noop_still_bumps (now : Nat) (s : ChatState) (cid mid content : String)
    (hpres : ∃ c ∈ s.conversations, c.id = cid)
    (hno : ∀ c ∈ s.conversations, c.id = cid → ∀ m ∈ c.messages, m.id ≠ mid) :
    (chatReducer now s (.editMessage cid mid content)).conversations =
      s.conversations.map (fun c => if c.id = cid then { c with updatedAt := now } else c) ∧
    (chatReducer now s (.deleteMessage cid mid)).conversations =
      s.conversations.map (fun c => if c.id = cid then { c with updatedAt := now } else c) := by
  constructor
  · show s.conversations.map (editMessageConv now cid mid content) = _
    refine List.map_congr_left (fun c hc => ?_)
    unfold editMessageConv
    by_cases hid : c.id = cid
    · rw [if_pos hid, if_pos hid]
      have hmap : c.messages.map (fun msg =>
          if msg.id = mid then { msg with content := content } else msg) = c.messages := by
        have hpt : ∀ m ∈ c.messages, (fun msg =>
            if msg.id = mid then { msg with content := content } else msg) m = id m :=
          fun m hm => if_neg (hno c hc hid m hm)
        rw [List.map_congr_left hpt, List.map_id]
      rw [hmap]
    · rw [if_neg hid, if_neg hid]
  · show s.conversations.map (deleteMessageConv now cid mid) = _
    refine List.map_congr_left (fun c hc => ?_)
    unfold deleteMessageConv
    by_cases hid : c.id = cid
    · rw [if_pos hid, if_pos hid]
      have hfil : c.messages.filter (fun msg => msg.id ≠ mid) = c.messages :=
        List.filter_eq_self.mpr (fun m hm => by simpa using hno c hc hid m hm)
      rw [hfil]
    · rw [if_neg hid, if_neg hid]

/-- C10 witness. -/
theorem editDelete_noop_still_bumps_witness :
    (chatReducer 9 ⟨[⟨"a", "t", [⟨"m1", "x", .user, 1, none⟩], 0, 1⟩], some "a", false⟩
        (.editMessage "a" "zz" "new")).conversations =
      [⟨"a", "t", [⟨"m1", "x", .user, 1, none⟩], 0, 1⟩].map
        (fun c => if c.id = "a" then { c with updatedAt := 9 } else c) ∧
    (chatReducer 9 ⟨[⟨"a", "t", [⟨"m1", "x", .user, 1, none⟩], 0, 1⟩], some "a", false⟩
        (.deleteMessage "a" "zz")).conversations =
      [⟨"a", "t", [⟨"m1", "x", .user, 1, none⟩], 0, 1⟩].map
        (fun c => if c.id = "a" then { c with updatedAt := 9 } else c) :=
  editDelete_noop_still_bumps 9 ⟨[⟨"a", "t", [⟨"m1", "x", .user, 1, none⟩], 0, 1⟩], some "a", false⟩
    "a" "zz" "new" ⟨⟨"a", "t", [⟨"m1", "x", .user, 1, none⟩], 0, 1⟩, by simp⟩ (by decide)

/-- `Map.get` after `Map.set` of the same key. -/
theorem rlGet_rlSet (m : RLMap) (key : String) (r : RateRecord) :
    rlGet (rlSet m key r) key = some r := by
  induction m with
  | nil => simp [rlGet, rlSet]
  | cons p rest ih =>
      obtain ⟨k, v⟩ := p
      by_cases hk : k = key <;> simp [rlGet, rlSet, hk, ih]

/-- Behaviour of a run of `checkRateLimit` calls whose times all fall at or
before the recorded reset time: the `i`-th call is allowed exactly while the
counter is still below the limit, and the counter never passes the limit. -/
theorem runRateLimit_within (key : String) (maxq window : Nat) (ts : List Nat)
    (R c : Nat) (m : RLMap) (hm : rlGet m key = some ⟨c, R⟩)
    (hts : ∀ t ∈ ts, t ≤ R) (hc : c ≤ maxq) :
    (runRateLimit key maxq window ts m).1 =
      (List.range ts.length).map (fun i => decide (c + i < maxq)) ∧
    rlGet (runRateLimit key maxq window ts m).2 key = some ⟨min maxq (c + ts.length), R⟩ := by
  induction ts generalizing c m with
  | nil =>
      refine ⟨rfl, ?_⟩
      show rlGet m key = _
      rw [hm]
      have hmin : min maxq (c + ([] : List Nat).length) = c := by
        simp only [List.length_nil, Nat.add_zero]
        omega
      rw [hmin]
  | cons t ts ih =>
      have htR : t ≤ R := hts t (List.mem_cons_self _ _)
      have hts' : ∀ x ∈ ts, x ≤ R := fun x hx => hts x (List.mem_cons_of_mem _ hx)
      have hstep : runRateLimit key maxq window (t :: ts) m =
          ((checkRateLimit key maxq window t m).1 ::
            (runRateLimit key maxq window ts (checkRateLimit key maxq window t m).2).1,
           (runRateLimit key maxq window ts (checkRateLimit key maxq window t m).2).2) := rfl
      rw [hstep]
      simp only [List.length_cons]
      by_cases hfull : c ≥ maxq
      · have hcheck : checkRateLimit key maxq window t m = (false, m) := by
          unfold checkRateLimit
          rw [hm]
          dsimp only
          rw [if_neg (by omega : ¬t > R), if_pos hfull]
        rw [hcheck]
        dsimp only
        obtain ⟨ih1, ih2⟩ := ih c m hm hts' hc
        refine ⟨?_, ?_⟩
        · rw [ih1, List.range_succ_eq_map, List.map_cons, List.map_map]
          congr 1
          · rw [eq_comm, decide_eq_false_iff_not]
            omega
          · refine List.map_congr_left (fun i _ => ?_)
            show decide (c + i < maxq) = decide (c + (i + 1) < maxq)
            rw [decide_eq_decide]
            omega
        · rw [ih2]
          have hmm : min maxq (c + ts.length) = min maxq (c + (ts.length + 1)) := by omega
          rw [hmm]
      · have hcheck : checkRateLimit key maxq window t m =
            (true, rlSet m key ⟨c + 1, R⟩) := by
          unfold checkRateLimit
          rw [hm]
          dsimp only
          rw [if_neg (by omega : ¬t > R), if_neg hfull]
        rw [hcheck]
        dsimp only
        obtain ⟨ih1, ih2⟩ := ih (c + 1) _ (rlGet_rlSet _ _ _) hts' (by omega)
        refine ⟨?_, ?_⟩
        · rw [ih1, List.range_succ_eq_map, List.map_cons, List.map_map]
          congr 1
          · rw [eq_comm, decide_eq_true_eq]
            omega
          · refine List.map_congr_left (fun i _ => ?_)
            show decide (c + 1 + i < maxq) = decide (c + (i + 1) < maxq)
            rw [decide_eq_decide]
            omega
        · rw [ih2]
          have hmm : min maxq (c + 1 + ts.length) = min maxq (c + (ts.length + 1)) := by omega
          rw [hmm]

/-- C8: with `maxRequests = 20` and `windowMs = 60000`, starting with no record
for the key, the first call (at `t0`) and the next 19 calls whose times lie
within the window `[t0, t0 + 60000]` are allowed, the 21st such call is
blocked, and any call strictly after the recorded reset time `t0 + 60000` is
allowed again (the counter resets). -/
theorem checkRateLimit_window (key : String) (t0 : Nat) (ts : List Nat) (m₀ : RLMap)
    (h0 : rlGet m₀ key = none) (hlen : ts.length = 20)
    (hts : ∀ t ∈ ts, t ≤ t0 + 60000) :
    (runRateLimit key 20 60000 (t0 :: ts) m₀).1 = List.replicate 20 true ++ [false] ∧
    ∀ tNext, t0 + 60000 < tNext →
      (checkRateLimit key 20 60000 tNext (runRateLimit key 20 60000 (t0 :: ts) m₀).2).1 =
        true := by
  have hcheck : checkRateLimit key 20 60000 t0 m₀ =
      (true, rlSet m₀ key ⟨1, t0 + 60000⟩) := by
    unfold checkRateLimit
    rw [h0]
  have hstep : runRateLimit key 20 60000 (t0 :: ts) m₀ =
      ((checkRateLimit key 20 60000 t0 m₀).1 ::
        (runRateLimit key 20 60000 ts (checkRateLimit key 20 60000 t0 m₀).2).1,
       (runRateLimit key 20 60000 ts (checkRateLimit key 20 60000 t0 m₀).2).2) := rfl
  rw [hstep, hcheck]
  dsimp only
  obtain ⟨hw1, hw2⟩ :=
    runRateLimit_within key 20 60000 ts (t0 + 60000) 1 (rlSet m₀ key ⟨1, t0 + 60000⟩)
      (rlGet_rlSet _ _ _) hts (by omega)
  rw [hlen] at hw1 hw2
  constructor
  · rw [hw1]
    decide
  · intro tNext htN
    unfold checkRateLimit
    rw [hw2]
    have hmin : min 20 (1 + 20) = 20 := by omega
    rw [hmin]
    dsimp only
    rw [if_pos (by omega : tNext > t0 + 60000)]

/-- C8 witness. -/
theorem checkRateLimit_window_witness :
    (runRateLimit "chat" 20 60000 (0 :: List.replicate 20 60000) []).1 =
      List.replicate 20 true ++ [false] ∧
    (checkRateLimit "chat" 20 60000 60001
        (runRateLimit "chat" 20 60000 (0 :: List.replicate 20 60000) []).2).1 = true := by
  have h := checkRateLimit_window "chat" 0 (List.replicate 20 60000) []
    rfl (by decide) (by decide)
  exact ⟨h.1, h.2 60001 (by decide)⟩

theorem splitFirst_length (d : List Char) (l : List Char) :
    ∀ a b, splitFirst d l = some (a, b) → a.length + d.length + b.length = l.length := by
  induction l with
  | nil => intro a b h; simp [splitFirst] at h
  | cons c cs ih =>
      intro a b h
      unfold splitFirst at h
      split at h
      · next hpre =>
          obtain ⟨rfl, rfl⟩ := Prod.mk.injEq .. ▸ Option.some.injEq .. ▸ h
          have hle : d.length ≤ (c :: cs).length :=
            (List.isPrefixOf_iff_prefix.mp hpre).length_le
          simp only [List.length_drop, List.length_nil]
          omega
      · next =>
          cases h' : splitFirst d cs with
          | none => rw [h'] at h; exact absurd h (by simp)
          | some p =>
              obtain ⟨a', b'⟩ := p
              rw [h'] at h
              obtain ⟨rfl, rfl⟩ := Prod.mk.injEq .. ▸ Option.some.injEq .. ▸ h
              have := ih a' b' h'
              simp only [List.length_cons]
              omega

/-- Escaping a character list leaves no `<` or `>` at all: every `<`, `>` and
`&` becomes an entity and every other character is neither. -/
theorem escapeHtmlList_no_angle (l : List Char) :
    (escapeHtmlList l).all (fun c => !(c == '<') && !(c == '>')) = true := by
  induction l with
  | nil => rfl
  | cons c rest ih =>
      show ((escapeHtmlChar c ++ escapeHtmlList rest).all
        (fun c => !(c == '<') && !(c == '>'))) = true
      rw [List.all_append, ih, Bool.and_true]
      unfold escapeHtmlChar
      split_ifs with h1 h2 h3
      · rfl
      · rfl
      · rfl
      · simp [h2, h3]

/-- C1 (amended): the fenced-code-block passes interpolate
`escapeHtmlList (trimChars code)` into their replacement templates
(`codeBlockReplacementLang` / `codeBlockReplacementPlain`), and that escaped
text never contains a raw `<` or `>`; so fenced-block content is HTML-escaped
before wrapping.  Inline code spans are not escaped (see
`codeSpan_unescaped`). -/
theorem fencedBlock_escapes_content (code : List Char) :
    codeBlockReplacementPlain code =
      "<div class=\"bg-muted/50 border rounded-lg p-4 my-2 overflow-x-auto\">\n      <pre class=\"text-sm font-mono overflow-x-auto\"><code>".data ++
        escapeHtmlList (trimChars code) ++ "</code></pre>\n    </div>".data ∧
    (escapeHtmlList (trimChars code)).all (fun c => !(c == '<') && !(c == '>')) = true :=
  ⟨rfl, escapeHtmlList_no_angle _⟩

/-- C1 counterexample: the inline-code pass interpolates its capture raw
(`'$1'` in line 29), so a code span containing markup reaches the output with
its `<` and `>` unescaped: `parseMarkdown` maps the input with code span
`<b>` to markup still containing the literal text `<b>`, and no `&lt;` entity
appears anywhere in the output. -/
theorem codeSpan_unescaped :
    parseMarkdown "`<b>`" =
      "<code class=\"bg-muted px-1.5 py-0.5 rounded text-sm font-mono\"><b></code>" ∧
    containsSub "<b>".data (parseMarkdown "`<b>`").data = true ∧
    containsSub "&lt;".data (parseMarkdown "`<b>`").data = false := by decide

/-- C9 (code bug): a line of the checkbox form `- [ ] text` never reaches the
checkbox pass, because the unordered-list pass (line 54) has already consumed
the leading `- `; the rendered output is a plain list item whose text still
contains `[ ] `, and no `<input>` checkbox is produced for either `- [ ]` or
`- [x]` lines. -/
theorem checkbox_line_not_rendered :
    parseMarkdown "- [ ] text" =
      "<ul class=\"my-2\"><li class=\"ml-4 list-disc\">[ ] text</li></ul>" ∧
    containsSub "input".data (parseMarkdown "- [ ] text").data = false ∧
    containsSub "checkbox".data (parseMarkdown "- [x] done").data = false := by decide

/-- The year-of-era extraction is sound: the year index stays below 400, its start
day is not after `doe`, and the residual day-of-year is at most 365. -/
theorem yoe_correct (doe : Nat) (h : doe < 146097) :
    yoeOfDoe doe ≤ 399 ∧ soyOfYoe (yoeOfDoe doe) ≤ doe ∧ doyOfDoe doe ≤ 365 := by
  unfold doyOfDoe soyOfYoe yoeOfDoe
  obtain ⟨y, hy, hyb⟩ :
      ∃ y, y = (doe - doe / 1460 + doe / 36524 - doe / 146096) / 365 ∧ y ≤ 400 :=
    ⟨_, rfl, by omega⟩
  rw [← hy]
  interval_cases y <;> omega

/-- Month/day extraction inverts the day-of-year formula, with month index at most
11 and day between 1 and 31. -/
theorem monthDay_roundtrip (doy : Nat) (h : doy ≤ 365) :
    (153 * mpOfDoy doy + 2) / 5 + dayOfDoy doy - 1 = doy ∧ mpOfDoy doy ≤ 11 ∧
      1 ≤ dayOfDoy doy ∧ dayOfDoy doy ≤ 31 := by
  simp only [dayOfDoy, mpOfDoy]
  omega

/-- `daysFromCivil` inverts `civilFromDays`: serialising a timestamp's calendar date
and reading it back yields the original day count. -/
theorem calendar_roundtrip (z : Nat) :
    daysFromCivil (civilFromDays z).1 (civilFromDays z).2.1 (civilFromDays z).2.2 = z := by
  have hdoe : doeOf z < 146097 := Nat.mod_lt _ (by norm_num)
  obtain ⟨hy399, hsoy, hdoy⟩ := yoe_correct (doeOf z) hdoe
  obtain ⟨hd1, hmp11, hdge, hdle⟩ := monthDay_roundtrip (doyOfDoe (doeOf z)) hdoy
  have hdm : eraOf z * 146097 + doeOf z = z + 719468 := by
    unfold eraOf doeOf
    omega
  have hdoyeq : doyOfDoe (doeOf z) = doeOf z - soyOfYoe (yoeOfDoe (doeOf z)) := rfl
  have hsoyeq : soyOfYoe (yoeOfDoe (doeOf z)) =
      365 * yoeOfDoe (doeOf z) + yoeOfDoe (doeOf z) / 4 - yoeOfDoe (doeOf z) / 100 := rfl
  unfold civilFromDays daysFromCivil
  dsimp only
  unfold monthOfMp
  by_cases hmp : mpOfDoy (doyOfDoe (doeOf z)) < 10
  · rw [if_pos hmp]
    rw [if_neg (by omega : ¬mpOfDoy (doyOfDoe (doeOf z)) + 3 ≤ 2)]
    rw [if_neg (by omega : ¬mpOfDoy (doyOfDoe (doeOf z)) + 3 ≤ 2)]
    rw [if_pos (by omega : mpOfDoy (doyOfDoe (doeOf z)) + 3 > 2)]
    simp only [Nat.add_sub_cancel]
    rw [(by omega : (yoeOfDoe (doeOf z) + eraOf z * 400) / 400 = eraOf z)]
    rw [(by omega : (yoeOfDoe (doeOf z) + eraOf z * 400) % 400 = yoeOfDoe (doeOf z))]
    rw [hd1]
    omega
  · rw [if_neg hmp]
    have h2 : mpOfDoy (doyOfDoe (doeOf z)) - 9 ≤ 2 := by omega
    rw [if_pos h2]
    rw [if_pos h2]
    rw [if_neg (by omega : ¬mpOfDoy (doyOfDoe (doeOf z)) - 9 > 2)]
    rw [Nat.sub_add_cancel (by omega : 9 ≤ mpOfDoy (doyOfDoe (doeOf z)))]
    rw [(by omega : yoeOfDoe (doeOf z) + eraOf z * 400 + 1 - 1 = yoeOfDoe (doeOf z) + eraOf z * 400)]
    rw [(by omega : (yoeOfDoe (doeOf z) + eraOf z * 400) / 400 = eraOf z)]
    rw [(by omega : (yoeOfDoe (doeOf z) + eraOf z * 400) % 400 = yoeOfDoe (doeOf z))]
    rw [hd1]
    omega

/-- For day counts up to 9999-12-31 the extracted year has at most four digits and
month and day are in range, so the fixed-width ISO rendering is faithful. -/
theorem civil_ranges (z : Nat) (h : z ≤ 2932896) :
    (civilFromDays z).1 ≤ 9999 ∧ 1 ≤ (civilFromDays z).2.1 ∧ (civilFromDays z).2.1 ≤ 12 ∧
      1 ≤ (civilFromDays z).2.2 ∧ (civilFromDays z).2.2 ≤ 31 := by
  have hdoe : doeOf z < 146097 := Nat.mod_lt _ (by norm_num)
  obtain ⟨hy399, hsoy, hdoy⟩ := yoe_correct (doeOf z) hdoe
  obtain ⟨hd1, hmp11, hdge, hdle⟩ := monthDay_roundtrip (doyOfDoe (doeOf z)) hdoy
  have hdm : eraOf z * 146097 + doeOf z = z + 719468 := by
    unfold eraOf doeOf
    omega
  have hera : eraOf z ≤ 24 := by
    unfold eraOf
    omega
  have hdoyeq : doyOfDoe (doeOf z) = doeOf z - soyOfYoe (yoeOfDoe (doeOf z)) := rfl
  have hsoyeq : soyOfYoe (yoeOfDoe (doeOf z)) =
      365 * yoeOfDoe (doeOf z) + yoeOfDoe (doeOf z) / 4 - yoeOfDoe (doeOf z) / 100 := rfl
  have hmpeq : mpOfDoy (doyOfDoe (doeOf z)) = (5 * doyOfDoe (doeOf z) + 2) / 153 := rfl
  unfold civilFromDays
  dsimp only
  unfold monthOfMp
  by_cases hmp : mpOfDoy (doyOfDoe (doeOf z)) < 10
  · rw [if_pos hmp, if_neg (by omega : ¬mpOfDoy (doyOfDoe (doeOf z)) + 3 ≤ 2)]
    exact ⟨by omega, by omega, by omega, by omega, by omega⟩
  · rw [if_neg hmp, if_pos (by omega : mpOfDoy (doyOfDoe (doeOf z)) - 9 ≤ 2)]
    have hdoy306 : 306 ≤ doyOfDoe (doeOf z) := by omega
    have hdoe2 : soyOfYoe (yoeOfDoe (doeOf z)) + doyOfDoe (doeOf z) ≤ doeOf z := by omega
    exact ⟨by omega, by omega, by omega, by omega, by omega⟩

/-- Digit characters satisfy `Char.isDigit`. -/
theorem digitChar_isDigit (n : Nat) (h : n ≤ 9) : (digitChar n).isDigit = true := by
  interval_cases n <;> decide

/-- Reading back a digit character yields the digit. -/
theorem digitVal_digitChar (n : Nat) (h : n ≤ 9) : digitVal (digitChar n) = n := by
  interval_cases n <;> decide

/-- Parsing inverts two-digit padding. -/
theorem parseNAux_pad2 (n : Nat) (rest : List Char) (h : n ≤ 99) :
    parseNAux 2 0 (pad2 n ++ rest) = some (n, rest) := by
  simp only [pad2, List.cons_append, List.nil_append, parseNAux,
    digitChar_isDigit _ (by omega : n / 10 % 10 ≤ 9),
    digitChar_isDigit _ (by omega : n % 10 ≤ 9), if_true,
    digitVal_digitChar _ (by omega : n / 10 % 10 ≤ 9),
    digitVal_digitChar _ (by omega : n % 10 ≤ 9)]
  congr 2
  omega

/-- Parsing inverts three-digit padding. -/
theorem parseNAux_pad3 (n : Nat) (rest : List Char) (h : n ≤ 999) :
    parseNAux 3 0 (pad3 n ++ rest) = some (n, rest) := by
  simp only [pad3, List.cons_append, List.nil_append, parseNAux,
    digitChar_isDigit _ (by omega : n / 100 % 10 ≤ 9),
    digitChar_isDigit _ (by omega : n / 10 % 10 ≤ 9),
    digitChar_isDigit _ (by omega : n % 10 ≤ 9), if_true,
    digitVal_digitChar _ (by omega : n / 100 % 10 ≤ 9),
    digitVal_digitChar _ (by omega : n / 10 % 10 ≤ 9),
    digitVal_digitChar _ (by omega : n % 10 ≤ 9)]
  congr 2
  omega

/-- Parsing inverts four-digit padding. -/
theorem parseNAux_pad4 (n : Nat) (rest : List Char) (h : n ≤ 9999) :
    parseNAux 4 0 (pad4 n ++ rest) = some (n, rest) := by
  simp only [pad4, List.cons_append, List.nil_append, parseNAux,
    digitChar_isDigit _ (by omega : n / 1000 % 10 ≤ 9),
    digitChar_isDigit _ (by omega : n / 100 % 10 ≤ 9),
    digitChar_isDigit _ (by omega : n / 10 % 10 ≤ 9),
    digitChar_isDigit _ (by omega : n % 10 ≤ 9), if_true,
    digitVal_digitChar _ (by omega : n / 1000 % 10 ≤ 9),
    digitVal_digitChar _ (by omega : n / 100 % 10 ≤ 9),
    digitVal_digitChar _ (by omega : n / 10 % 10 ≤ 9),
    digitVal_digitChar _ (by omega : n % 10 ≤ 9)]
  congr 2
  omega

/-- `expectChar` consumes the expected character. -/
theorem expectChar_cons (c : Char) (rest : List Char) :
    expectChar c (c :: rest) = some rest := by
  simp [expectChar]

/-- One field of `parseFields` unfolds once the digits and separator are consumed. -/
theorem parseFields_step (w : Nat) (ch : Char) (fs : List (Nat × Char)) (n : Nat)
    (l rest : List Char) (hp : parseNAux w 0 l = some (n, ch :: rest)) :
    parseFields ((w, ch) :: fs) l =
      match parseFields fs rest with
      | none => none
      | some ns => some (n :: ns) := by
  simp only [parseFields]
  rw [hp]
  dsimp only
  rw [expectChar_cons]

/-- `parseFields` recovers all seven numeric fields from a built ISO string. -/
theorem parseISO_build (y mo d h mi s ms : Nat) (hy : y ≤ 9999) (hmo : mo ≤ 99)
    (hd : d ≤ 99) (hh : h ≤ 99) (hmi : mi ≤ 99) (hs : s ≤ 99) (hms : ms ≤ 999) :
    parseFields [(4, '-'), (2, '-'), (2, 'T'), (2, ':'), (2, ':'), (2, '.'), (3, 'Z')]
        (pad4 y ++ '-' :: (pad2 mo ++ '-' :: (pad2 d ++ 'T' :: (pad2 h ++ ':' ::
          (pad2 mi ++ ':' :: (pad2 s ++ '.' :: (pad3 ms ++ ['Z']))))))) =
      some [y, mo, d, h, mi, s, ms] := by
  rw [parseFields_step 4 '-' _ y _ _ (parseNAux_pad4 y _ hy)]
  rw [parseFields_step 2 '-' _ mo _ _ (parseNAux_pad2 mo _ hmo)]
  rw [parseFields_step 2 'T' _ d _ _ (parseNAux_pad2 d _ hd)]
  rw [parseFields_step 2 ':' _ h _ _ (parseNAux_pad2 h _ hh)]
  rw [parseFields_step 2 ':' _ mi _ _ (parseNAux_pad2 mi _ hmi)]
  rw [parseFields_step 2 '.' _ s _ _ (parseNAux_pad2 s _ hs)]
  rw [parseFields_step 3 'Z' _ ms _ _ (parseNAux_pad3 ms _ hms)]
  rfl

/-- Characterisation of `parseISODate` on a string whose fields parse. -/
theorem parseISODate_eq (s : String) (y mo d h mi sec ms : Nat)
    (h7 : parseFields [(4, '-'), (2, '-'), (2, 'T'), (2, ':'), (2, ':'), (2, '.'), (3, 'Z')]
        s.data = some [y, mo, d, h, mi, sec, ms]) :
    parseISODate s =
      some (daysFromCivil y mo d * 86400000 + h * 3600000 + mi * 60000 + sec * 1000 + ms) := by
  unfold parseISODate
  rw [h7]

/-- `new Date(s).getTime()` inverts `Date.prototype.toISOString` to the millisecond
for every timestamp before the year 10000. -/
theorem parseISO_toISO (t : Nat) (ht : t < 253402300800000) :
    parseISODate (toISOString t) = some t := by
  have hdays : t / 86400000 ≤ 2932896 := by omega
  obtain ⟨hy, hm1, hm2, hd1, hd2⟩ := civil_ranges (t / 86400000) hdays
  have hcal := calendar_roundtrip (t / 86400000)
  have hb := parseISO_build (civilFromDays (t / 86400000)).1
    (civilFromDays (t / 86400000)).2.1 (civilFromDays (t / 86400000)).2.2
    (t / 3600000 % 24) (t / 60000 % 60) (t / 1000 % 60) (t % 1000)
    (by omega) (by omega) (by omega) (by omega) (by omega) (by omega) (by omega)
  rw [parseISODate_eq (toISOString t) _ _ _ _ _ _ _ hb]
  rw [hcal]
  rw [Option.some.injEq]
  omega

/-- Role strings decode back to the role. -/
theorem roleOfString_roleToString (r : Role) : roleOfString (roleToString r) = some r := by
  cases r <;> rfl

/-- A list of strings encoded as a JSON array decodes back. -/
theorem strListOf_map (l : List String) : strListOf (l.map Json.str) = some l := by
  induction l with
  | nil => rfl
  | cons s rest ih => simp [strListOf, ih]

/-- `decodeMessage` on an object whose fields are all present and well formed. -/
theorem decodeMessage_fields (fields : List (String × Json)) (mid content roleS ts : String)
    (oa : Option Json) (atts : Option (List String))
    (hid : getField fields "id" = some (Json.str mid))
    (hco : getField fields "content" = some (Json.str content))
    (hro : getField fields "role" = some (Json.str roleS))
    (hts : getField fields "timestamp" = some (Json.str ts))
    (hat : getField fields "attachments" = oa)
    (hda : decodeAttachments oa = some atts)
    (r : Role) (hr : roleOfString roleS = some r)
    (t : Nat) (ht : parseISODate ts = some t) :
    decodeMessage (Json.obj fields) = Except.ok ⟨mid, content, r, t, atts⟩ := by
  simp only [decodeMessage, hid, hco, hro, hts, hat, hda, asStr, Option.bind, hr, ht]

/-- Decoding inverts `encodeMessage` on well-formed messages. -/
theorem decodeMessage_encode (m : Message) (h : messageWF m = true) :
    decodeMessage (encodeMessage m) = Except.ok m := by
  obtain ⟨mid, content, role, ts, atts⟩ := m
  have ht : ts < 253402300800000 := by simpa [messageWF] using h
  have hiso := parseISO_toISO ts ht
  cases atts with
  | none =>
      exact decodeMessage_fields
        [("id", Json.str mid), ("content", Json.str content),
         ("role", Json.str (roleToString role)), ("timestamp", Json.str (toISOString ts))]
        mid content (roleToString role) (toISOString ts) none none
        rfl rfl rfl rfl rfl rfl role (roleOfString_roleToString role) ts hiso
  | some l =>
      exact decodeMessage_fields
        [("id", Json.str mid), ("content", Json.str content),
         ("role", Json.str (roleToString role)), ("timestamp", Json.str (toISOString ts)),
         ("attachments", Json.arr (l.map Json.str))]
        mid content (roleToString role) (toISOString ts)
        (some (Json.arr (l.map Json.str))) (some l)
        rfl rfl rfl rfl rfl (by simp [decodeAttachments, strListOf_map])
        role (roleOfString_roleToString role) ts hiso

/-- Decoding inverts encoding on a list of well-formed messages. -/
theorem mapDecode_encode (ms : List Message) (h : ms.all messageWF = true) :
    mapDecode (ms.map encodeMessage) = Except.ok ms := by
  induction ms with
  | nil => rfl
  | cons m rest ih =>
      simp only [List.all_cons, Bool.and_eq_true] at h
      simp only [List.map_cons, mapDecode, decodeMessage_encode m h.1, ih h.2]

/-- `decodeConversation` on an object whose fields are all present and well formed. -/
theorem decodeConversation_fields (fields : List (String × Json)) (cid title cas uas : String)
    (msgs : List Json) (ms : List Message)
    (hms : getField fields "messages" = some (Json.arr msgs))
    (hdm : mapDecode msgs = Except.ok ms)
    (hid : getField fields "id" = some (Json.str cid))
    (hti : getField fields "title" = some (Json.str title))
    (hca : getField fields "createdAt" = some (Json.str cas))
    (hua : getField fields "updatedAt" = some (Json.str uas))
    (ca : Nat) (hca2 : parseISODate cas = some ca)
    (ua : Nat) (hua2 : parseISODate uas = some ua) :
    decodeConversation (Json.obj fields) = Except.ok ⟨cid, title, ms, ca, ua⟩ := by
  simp only [decodeConversation, hms, hdm, hid, hti, hca, hua, asStr, Option.bind, hca2, hua2]

/-- Decoding inverts `encodeConversation` on well-formed conversations. -/
theorem decodeConversation_encode (c : Conversation) (h : convWF c = true) :
    decodeConversation (encodeConversation c) = Except.ok c := by
  obtain ⟨cid, title, ms, ca, ua⟩ := c
  simp only [convWF, Bool.and_eq_true, decide_eq_true_eq] at h
  exact decodeConversation_fields
    [("id", Json.str cid), ("title", Json.str title),
     ("messages", Json.arr (ms.map encodeMessage)),
     ("createdAt", Json.str (toISOString ca)), ("updatedAt", Json.str (toISOString ua))]
    cid title (toISOString ca) (toISOString ua)
    (ms.map encodeMessage) ms rfl (mapDecode_encode ms h.2) rfl rfl rfl rfl
    ca (parseISO_toISO ca h.1.1) ua (parseISO_toISO ua h.1.2)

/-- Decoding inverts encoding on a list of well-formed conversations. -/
theorem mapDecodeConv_encode (cs : List Conversation) (h : cs.all convWF = true) :
    mapDecodeConv (cs.map encodeConversation) = Except.ok cs := by
  induction cs with
  | nil => rfl
  | cons c rest ih =>
      simp only [List.all_cons, Bool.and_eq_true] at h
      simp only [List.map_cons, mapDecodeConv, decodeConversation_encode c h.1, ih h.2]

/-- C2: for every well-formed list of conversations (all timestamps before the
year 10000), `conversationStorage.load` after `conversationStorage.save`
reproduces the same conversations, with `createdAt`, `updatedAt` and every
message timestamp reconstructed equal to the original to the millisecond. -/
theorem conversationStorage_roundtrip (cs : List Conversation) (h : cs.all convWF = true) :
    loadConversations (saveConversations cs) = Except.ok cs := by
  unfold loadConversations saveConversations safeJsonParse
  exact mapDecodeConv_encode cs h

theorem conversationStorage_roundtrip_witness :
    ([(⟨"c1", "Greeting", [⟨"m1", "hello", Role.user, 1700000000123, some ["f1"]⟩],
        1700000000123, 1700000000124⟩ : Conversation)].all convWF = true) ∧
    loadConversations (saveConversations
        [⟨"c1", "Greeting", [⟨"m1", "hello", Role.user, 1700000000123, some ["f1"]⟩],
          1700000000123, 1700000000124⟩]) =
      Except.ok
        [⟨"c1", "Greeting", [⟨"m1", "hello", Role.user, 1700000000123, some ["f1"]⟩],
          1700000000123, 1700000000124⟩] :=
  ⟨by decide, conversationStorage_roundtrip _ (by decide)⟩

/-- C7 (amended): `conversationStorage.load` returns the fallback empty list when
the conversations key is absent or its stored text fails to parse
(`safeJsonParse` never raises); but when the stored text parses to JSON that is
not an array, `load` raises a TypeError to the caller instead of falling back. -/
theorem load_fallback_or_raise (j : Json) (h : isArrJson j = false) :
    loadConversations StoredText.absent = Except.ok [] ∧
    loadConversations StoredText.unparsable = Except.ok [] ∧
    loadConversations (StoredText.parsed j) =
      Except.error "conversations.map is not a function" := by
  refine ⟨rfl, rfl, ?_⟩
  unfold loadConversations safeJsonParse
  cases j <;> simp_all [isArrJson]

theorem load_fallback_or_raise_witness :
    isArrJson (Json.num 5) = false ∧
    (loadConversations StoredText.absent = Except.ok [] ∧
      loadConversations StoredText.unparsable = Except.ok [] ∧
      loadConversations (StoredText.parsed (Json.num 5)) =
        Except.error "conversations.map is not a function") :=
  ⟨rfl, load_fallback_or_raise (Json.num 5) rfl⟩

/-- C7 counterexample: the stored text `5` is valid JSON, so it gets past
`safeJsonParse`, yet `load` raises a TypeError from `conversations.map` rather
than returning a fallback: `load` can raise to the caller. -/
theorem load_raises_on_nonarray_json :
    loadConversations (StoredText.parsed (Json.num 5)) =
      Except.error "conversations.map is not a function" := rfl
